import Mathlib

/-!
Verification development for `tools/generate_news.py`, a one-shot RSS-to-static-HTML
generator.  The Python source is shallowly embedded below:

* `slugify` mirrors `slugify` (lines 16-20): lower-case, strip surrounding
  whitespace, delete characters outside word/whitespace/hyphen, collapse runs of
  whitespace/underscore/hyphen into a single hyphen, strip hyphens, fall back to
  `"item"`.  Python's `re` character classes `\w` and `\s` are modelled over the
  ASCII ranges (letters, digits, underscore; the ASCII whitespace characters),
  and `str.lower` by `Char.toLower` (ASCII case mapping).
* `DateTime` models naive `datetime.datetime` values with comparison
  lexicographic on (year, month, day, hour, minute, second), Python's ordering
  between naive datetimes; `TzDateTime` refines it with the optional UTC
  offset, under which comparing naive with aware raises `TypeError`.
* `parse_rss` mirrors `parse_rss` (lines 26-54).  XML parsing itself is stdlib
  (`xml.etree.ElementTree`), so a parsed feed is represented structurally as
  `RSSDoc` (an optional `channel` holding a list of raw items, each with
  optional `title`/`link`/`description`/`pubDate` text).  The stdlib date parser
  `parsedate_to_datetime` is a parameter `pd : String → Option DateTime`
  (`none` models an exception), and `datetime.now()` is a parameter `now`.
  Python's `list.sort(key=..., reverse=True)` is a stable descending sort,
  modelled by `List.mergeSort` with the reversed comparison.
* `page_template`, `filenameOf`, `newsIndexPage`, `mainRun`, `mainFull` mirror
  `page_template` (lines 56-106) and `main` (lines 113-175); `html.escape` is
  embedded character-wise (equivalent to its sequential `str.replace` chain,
  since no replacement output contains a character replaced later).
-/

/-- ASCII whitespace, the characters Python's `str.strip()` and `\s` (ASCII) match
(stated on code points: space 32, tab 9, LF 10, CR 13, VT 11, FF 12). -/
def isSpaceA (c : Char) : Bool :=
  c.toNat == 32 || c.toNat == 9 || c.toNat == 10 ||
  c.toNat == 13 || c.toNat == 11 || c.toNat == 12

/-- Python regex `\w` over ASCII: letters `a`-`z` (97-122) and `A`-`Z` (65-90),
digits `0`-`9` (48-57), underscore (95). -/
def isWordA (c : Char) : Bool :=
  (97 ≤ c.toNat && c.toNat ≤ 122) || (65 ≤ c.toNat && c.toNat ≤ 90) ||
  (48 ≤ c.toNat && c.toNat ≤ 57) || c.toNat == 95

/-- The class kept by `re.sub(r"[^\w\s-]", "", s)`: word characters, whitespace,
hyphen (code point 45). -/
def keepA (c : Char) : Bool := isWordA c || isSpaceA c || c.toNat == 45

/-- The class `[\s_-]` whose runs `re.sub(r"[\s_-]+", "-", s)` collapses:
whitespace, underscore (95), hyphen (45). -/
def isSepA (c : Char) : Bool := isSpaceA c || c.toNat == 95 || c.toNat == 45

/-- Embeds `str.strip`-style trimming: drop characters satisfying `p` from both ends. -/
def pyStripP (p : Char → Bool) (l : List Char) : List Char :=
  ((l.dropWhile p).reverse.dropWhile p).reverse

/-- Embeds `re.sub(r"[\s_-]+", "-", s)`: each maximal run of separator characters becomes
one hyphen.  The flag records whether the previous character was in a run. -/
def collapseAux : Bool → List Char → List Char
  | _, [] => []
  | inRun, c :: cs =>
    if isSepA c then
      if inRun then collapseAux true cs else '-' :: collapseAux true cs
    else c :: collapseAux false cs

def collapseSeps (l : List Char) : List Char := collapseAux false l

/-- Embeds `slugify` (generate_news.py lines 16-20). -/
def slugify (s : String) : String :=
  let l := (s.data.map Char.toLower)
  let l := pyStripP isSpaceA l
  let l := l.filter keepA
  let l := collapseSeps l
  let l := pyStripP (fun c => c.toNat == 45) l
  if l.isEmpty then "item" else String.mk l

example : slugify "Hello, World!" = "hello-world" := by decide
example : slugify "hello world" = "hello-world" := by decide
example : slugify "" = "item" := by decide
example : slugify "?!...-_" = "item" := by decide
example : slugify "  A  b_c--d " = "a-b-c-d" := by decide
example : slugify (slugify "  A  b_c--d ") = slugify "  A  b_c--d " := by decide

/-- A `datetime.datetime` value (microseconds omitted; nothing in the program
distinguishes finer than seconds). -/
structure DateTime where
  year : Nat
  month : Nat
  day : Nat
  hour : Nat
  minute : Nat
  second : Nat
deriving DecidableEq, Repr

/-- Python's `datetime` ordering between two naive datetimes: lexicographic on
the components.  This total comparison matches the source on every run that
completes; it deliberately omits `tzinfo`, under which naive-vs-aware
comparison raises `TypeError` — that error path is modelled separately by
`TzDateTime.le?` below and is what decides claim C3. -/
def DateTime.le (a b : DateTime) : Bool :=
  if a.year ≠ b.year then decide (a.year < b.year)
  else if a.month ≠ b.month then decide (a.month < b.month)
  else if a.day ≠ b.day then decide (a.day < b.day)
  else if a.hour ≠ b.hour then decide (a.hour < b.hour)
  else if a.minute ≠ b.minute then decide (a.minute < b.minute)
  else decide (a.second ≤ b.second)

theorem DateTime.le_iff (a b : DateTime) : a.le b = true ↔
    (a.year < b.year ∨ (a.year = b.year ∧
      (a.month < b.month ∨ (a.month = b.month ∧
        (a.day < b.day ∨ (a.day = b.day ∧
          (a.hour < b.hour ∨ (a.hour = b.hour ∧
            (a.minute < b.minute ∨ (a.minute = b.minute ∧
              a.second ≤ b.second)))))))))) := by
  simp only [DateTime.le]
  split_ifs <;> simp_all

theorem DateTime.le_trans {a b c : DateTime} (h₁ : a.le b = true) (h₂ : b.le c = true) :
    a.le c = true := by
  rw [DateTime.le_iff] at *; omega

theorem DateTime.le_total (a b : DateTime) : (a.le b || b.le a) = true := by
  rw [Bool.or_eq_true, DateTime.le_iff, DateTime.le_iff]
  omega

theorem DateTime.le_refl (a : DateTime) : a.le a = true := by
  rw [DateTime.le_iff]; omega

theorem DateTime.le_antisymm {a b : DateTime} (h₁ : a.le b = true) (h₂ : b.le a = true) :
    a = b := by
  rw [DateTime.le_iff] at *
  cases a; cases b
  simp only [DateTime.mk.injEq]
  simp only at h₁ h₂
  omega

/-- A parsed feed item record, the dict built at lines 45-50. -/
structure FeedItem where
  title : String
  link : String
  description : String
  pubDate : DateTime
deriving DecidableEq, Repr

/-- One `<item>` element: each child's text, when the child is present.
`findtext` yields `None` for a missing child, embedded as `none`. -/
structure RawItem where
  title : Option String
  link : Option String
  description : Option String
  pubDate : Option String
deriving DecidableEq, Repr

/-- The `<channel>` element with its `<item>` children in document order. -/
structure Channel where
  items : List RawItem
deriving DecidableEq, Repr

/-- A well-formed feed document: `root.find("channel")` either locates a channel
or yields `None`. -/
structure RSSDoc where
  channel : Option Channel
deriving DecidableEq, Repr

/-- Embeds `(item.findtext(x) or "").strip()`. -/
def getText (o : Option String) : String := String.mk (pyStripP isSpaceA (o.getD "").data)

/-- The loop body of `parse_rss` (lines 34-50): extract the trimmed texts, parse
the date with fallback `now`, default the title.  `pd` embeds
`parsedate_to_datetime` (`none` = the call raised). -/
def parseItem (pd : String → Option DateTime) (now : DateTime) (it : RawItem) : FeedItem :=
  let title := getText it.title
  let link := getText it.link
  let desc := getText it.description
  let pub := getText it.pubDate
  let dt := (pd pub).getD now
  { title := if title = "" then "Untitled" else title
    link := link
    description := desc
    pubDate := dt }

/-- The comparison realizing `items.sort(key=lambda x: x["pubDate"], reverse=True)`:
Python's sort is stable, and `reverse=True` sorts descending keeping ties in
input order, i.e. a stable sort under "a's key ≥ b's key". -/
def descLE (a b : FeedItem) : Bool := DateTime.le b.pubDate a.pubDate

/-- Embeds `parse_rss` (lines 26-54), for an already well-formed XML document
(`ET.fromstring` failure is fatal and modelled at `mainFull`).  `maxItems`
embeds the configured `MAX_ITEMS`. -/
def parse_rss (pd : String → Option DateTime) (now : DateTime) (maxItems : Nat)
    (doc : RSSDoc) : List FeedItem :=
  match doc.channel with
  | none => []
  | some ch => (((ch.items.map (parseItem pd now)).mergeSort descLE).take maxItems)


/-- Embeds `str.strip()` on a `String`. -/
def pyStripS (s : String) : String := String.mk (pyStripP isSpaceA s.data)

/-- Embeds `html.escape` (with its default `quote=True`), character-wise. -/
def escapeChar (c : Char) : String :=
  if c == '&' then "&amp;"
  else if c == '<' then "&lt;"
  else if c == '>' then "&gt;"
  else if c == '"' then "&quot;"
  else if c.toNat == 39 then "&#x27;"
  else String.mk [c]

def html_escape (s : String) : String := String.join (s.data.map escapeChar)

/-- Two-digit zero padding, as strftime `%m`/`%d`. -/
def pad2 (n : Nat) : String := if n < 10 then "0" ++ toString n else toString n

/-- Four-digit zero padding, as strftime `%Y`. -/
def pad4 (n : Nat) : String :=
  if n < 10 then "000" ++ toString n
  else if n < 100 then "00" ++ toString n
  else if n < 1000 then "0" ++ toString n
  else toString n

/-- C-locale `%b` month abbreviations (months are 1-based). -/
def monthAbbrev (m : Nat) : String :=
  ["Jan", "Feb", "Mar", "Apr", "May", "Jun",
   "Jul", "Aug", "Sep", "Oct", "Nov", "Dec"].getD (m - 1) ""

/-- Embeds `dt.strftime("%Y-%m-%d")` (line 125). -/
def fmtYMD (d : DateTime) : String :=
  pad4 d.year ++ "-" ++ pad2 d.month ++ "-" ++ pad2 d.day

/-- Embeds `dt.strftime("%d %b %Y")` (lines 132 and 140). -/
def fmtHuman (d : DateTime) : String :=
  pad2 d.day ++ " " ++ monthAbbrev d.month ++ " " ++ pad4 d.year

/-- The part of the item-page f-string (lines 64-93) before `{body_html}`.
Literal braces from the CSS are written as character escapes. -/
def page_before (title nav_pre : String) : String :=
  "<!doctype html>\n" ++
  "<html lang=\"en\">\n" ++
  "<head>\n" ++
  "  <meta charset=\"utf-8\" />\n" ++
  "  <meta name=\"viewport\" content=\"width=device-width, initial-scale=1\" />\n" ++
  "  <title>" ++ html_escape title ++ "</title>\n" ++
  "  <style>\n" ++
  "    body \x7b font-family: system-ui, -apple-system, Segoe UI, Roboto, Arial, sans-serif; line-height: 1.5; margin: 0; \x7d\n" ++
  "    header, main, footer \x7b max-width: 900px; margin: 0 auto; padding: 18px; \x7d\n" ++
  "    nav a \x7b margin-right: 12px; \x7d\n" ++
  "    article \x7b border: 1px solid #ddd; border-radius: 10px; padding: 14px; \x7d\n" ++
  "    .muted \x7b color: #555; \x7d\n" ++
  "    hr \x7b border: 0; border-top: 1px solid #eee; margin: 18px 0; \x7d\n" ++
  "  </style>\n" ++
  "</head>\n" ++
  "<body>\n" ++
  "  <header>\n" ++
  "    <nav>\n" ++
  "      <a href=\"" ++ nav_pre ++ "\">Home</a>\n" ++
  "      <a href=\"" ++ nav_pre ++ "news/\">News</a>\n" ++
  "      <a href=\"" ++ nav_pre ++ "policies/\">Policies</a>\n" ++
  "    </nav>\n" ++
  "  </header>\n" ++
  "\n" ++
  "  <main>\n" ++
  "    <article>\n" ++
  "      <h1>" ++ html_escape title ++ "</h1>\n" ++
  "      <p class=\"muted\"><em>Published: "

/-- The part of the item-page f-string strictly between `{body_html}` and the
escaped `published` date: the f-string places `{html.escape(published)}` then
the separator `<hr />` right before the body. -/
def page_mid (published : String) : String :=
  html_escape published ++ "</em></p>\n" ++
  "      <hr />\n" ++
  "      "

/-- The `giscus_block` local of `page_template` (lines 58-62): a stripped
three-line block when a snippet is configured, a fixed placeholder otherwise. -/
def giscus_block (giscus : String) : String :=
  if giscus ≠ "" then
    pyStripS ("\n<h2>Comments</h2>\n<div class=\"giscus\"></div>\n" ++ giscus ++ "\n")
  else "<p><em>(Comments not configured yet)</em></p>"

/-- The part of the item-page f-string after `{body_html}` (lines 94-106). -/
def page_after (giscus : String) : String :=
  "\n" ++
  "    </article>\n" ++
  "\n" ++
  "    <hr />\n" ++
  "    " ++ giscus_block giscus ++ "\n" ++
  "  </main>\n" ++
  "\n" ++
  "  <footer class=\"muted\">\n" ++
  "    <hr />\n" ++
  "    <p>Not affiliated with the school. Parent/community initiative focused on improving communication.</p>\n" ++
  "  </footer>\n" ++
  "</body>\n" ++
  "</html>\n"

/-- Embeds `page_template` (lines 56-106), assembled from the pieces around its two
variable splice points. -/
def page_template (giscus title published body_html nav_pre : String) : String :=
  page_before title nav_pre ++ page_mid published ++ body_html ++ page_after giscus

/-- Embeds `os.path.join("docs", "news")` on a POSIX path separator (line 11). -/
def OUT_DIR : String := "docs/news"

/-- One call of `write_file` (line 133 or 175): destination path and text. -/
structure WrittenFile where
  path : String
  content : String
deriving DecidableEq, Repr

/-- Embeds `f"{date_str}-{slug}.html"` (lines 125-127). -/
def filenameOf (it : FeedItem) : String :=
  fmtYMD it.pubDate ++ "-" ++ slugify it.title ++ ".html"

/-- Embeds `it["description"] or "<p>(No description provided)</p>"` (line 131). -/
def bodyHtmlOf (it : FeedItem) : String :=
  if it.description = "" then "<p>(No description provided)</p>" else it.description

/-- The item page written for one item (line 132). -/
def renderItem (giscus : String) (it : FeedItem) : String :=
  page_template giscus it.title (fmtHuman it.pubDate) (bodyHtmlOf it) "../"

/-- The `(dt, it["title"], filename)` triple appended to `index_items` (line 135). -/
def indexTriple (it : FeedItem) : DateTime × String × String :=
  (it.pubDate, it.title, filenameOf it)

/-- Embeds `index_items.sort(key=lambda x: x[0], reverse=True)` (line 138). -/
def tripleLE (a b : DateTime × String × String) : Bool := DateTime.le b.1 a.1

def indexEntries (items : List FeedItem) : List (DateTime × String × String) :=
  (items.map indexTriple).mergeSort tripleLE

/-- One `<li>` line of the index (line 140). -/
def liOf : DateTime × String × String → String
  | (dt, title, fname) =>
    "<li><a href=\"./" ++ html_escape fname ++ "\">" ++ html_escape title ++
    "</a> <span class=\"muted\">(" ++ fmtHuman dt ++ ")</span></li>"

/-- Embeds `lis = "\n".join(...)` (lines 139-142). -/
def lisOf (entries : List (DateTime × String × String)) : String :=
  String.intercalate "\n" (entries.map liOf)

/-- The index f-string before `{lis}` (lines 144-169). -/
def idx_before : String :=
  "<!doctype html>\n" ++
  "<html lang=\"en\">\n" ++
  "<head>\n" ++
  "  <meta charset=\"utf-8\" />\n" ++
  "  <meta name=\"viewport\" content=\"width=device-width, initial-scale=1\" />\n" ++
  "  <title>News</title>\n" ++
  "  <style>\n" ++
  "    body \x7b font-family: system-ui, -apple-system, Segoe UI, Roboto, Arial, sans-serif; line-height: 1.5; margin: 0; \x7d\n" ++
  "    header, main \x7b max-width: 900px; margin: 0 auto; padding: 18px; \x7d\n" ++
  "    nav a \x7b margin-right: 12px; \x7d\n" ++
  "    .muted \x7b color: #555; \x7d\n" ++
  "  </style>\n" ++
  "</head>\n" ++
  "<body>\n" ++
  "  <header>\n" ++
  "    <nav>\n" ++
  "      <a href=\"../\">Home</a>\n" ++
  "      <a href=\"./\">News</a>\n" ++
  "      <a href=\"../policies/\">Policies</a>\n" ++
  "    </nav>\n" ++
  "    <h1>News</h1>\n" ++
  "    <p class=\"muted\">Auto-generated from the configured RSS feed.</p>\n" ++
  "  </header>\n" ++
  "  <main>\n" ++
  "    <ul>\n" ++
  "      "

/-- The index f-string after `{lis}` (lines 169-174). -/
def idx_after : String :=
  "\n" ++
  "    </ul>\n" ++
  "  </main>\n" ++
  "</body>\n" ++
  "</html>\n"

/-- Embeds `news_index` (lines 144-174). -/
def newsIndexPage (entries : List (DateTime × String × String)) : String :=
  idx_before ++ lisOf entries ++ idx_after

/-- The writes performed by `main`'s rendering phase (lines 120-175), in program
order: one file per item, then `index.html`. -/
def mainRun (giscus : String) (items : List FeedItem) : List WrittenFile :=
  (items.map fun it => ⟨OUT_DIR ++ "/" ++ filenameOf it, renderItem giscus it⟩)
  ++ [⟨OUT_DIR ++ "/index.html", newsIndexPage (indexEntries items)⟩]

/-- Embeds `main` (lines 113-175) together with the module-level configuration reads
(lines 10-14).  `fetchF` embeds `fetch` (an `Except.error` is a network
failure), `parseXML` embeds `ET.fromstring` (an `Except.error` is a fatal
`ParseError`); the `SystemExit` for a missing URL is `Except.error` before
either is consulted. -/
def mainFull (rssEnv : Option String) (fetchF : String → Except String String)
    (parseXML : String → Except String RSSDoc)
    (pd : String → Option DateTime) (now : DateTime) (maxItems : Nat)
    (giscusEnv : Option String) : Except String (List WrittenFile) :=
  let feedUrl := pyStripS (rssEnv.getD "")
  let giscus := pyStripS (giscusEnv.getD "")
  if feedUrl = "" then Except.error "RSS_FEED env var is required"
  else
    match fetchF feedUrl with
    | Except.error e => Except.error e
    | Except.ok xml =>
      match parseXML xml with
      | Except.error e => Except.error e
      | Except.ok doc => Except.ok (mainRun giscus (parse_rss pd now maxItems doc))

/-! ### Generic helper lemmas about trimming and collapsing -/

theorem dropWhile_eq_self_of_head {α : Type} (p : α → Bool) (l : List α)
    (h : ∀ c, l.head? = some c → p c = false) : l.dropWhile p = l := by
  cases l with
  | nil => rfl
  | cons c cs => simp [List.dropWhile_cons, h c rfl]

theorem pyStripP_eq_self_of_none (p : Char → Bool) (l : List Char)
    (h : ∀ c ∈ l, p c = false) : pyStripP p l = l := by
  unfold pyStripP
  rw [dropWhile_eq_self_of_head p l (fun c hc => h c (List.mem_of_mem_head? hc)),
    dropWhile_eq_self_of_head p l.reverse
      (fun c hc => h c (List.mem_reverse.mp (List.mem_of_mem_head? hc))),
    List.reverse_reverse]

theorem mem_of_mem_pyStripP {p : Char → Bool} {l : List Char} {c : Char}
    (h : c ∈ pyStripP p l) : c ∈ l := by
  unfold pyStripP at h
  rw [List.mem_reverse] at h
  have h₂ := List.Sublist.mem h (List.dropWhile_sublist p)
  rw [List.mem_reverse] at h₂
  exact List.Sublist.mem h₂ (List.dropWhile_sublist p)

theorem collapseAux_true_of_all_sep (l : List Char) (h : ∀ c ∈ l, isSepA c = true) :
    collapseAux true l = [] := by
  induction l with
  | nil => rfl
  | cons c cs ih =>
    simp only [collapseAux, h c (List.mem_cons_self c cs), if_true]
    exact ih (fun d hd => h d (List.mem_cons_of_mem c hd))

/-! ### Character-class lemmas -/

/-- ASCII punctuation, the characters of Python's `string.punctuation`:
code points 33-47, 58-64, 91-96, 123-126. -/
def isPunctA (c : Char) : Bool :=
  (33 ≤ c.toNat && c.toNat ≤ 47) || (58 ≤ c.toNat && c.toNat ≤ 64) ||
  (91 ≤ c.toNat && c.toNat ≤ 96) || (123 ≤ c.toNat && c.toNat ≤ 126)

theorem toLower_eq_self_of_not_upper {c : Char} (h : ¬(65 ≤ c.toNat ∧ c.toNat ≤ 90)) :
    Char.toLower c = c := by
  simp only [Char.toLower]
  rw [if_neg (by omega)]

theorem isSpaceA_false_of_punct {c : Char} (h : isPunctA c = true) : isSpaceA c = false := by
  simp only [isPunctA, isSpaceA, Bool.or_eq_true, Bool.and_eq_true, decide_eq_true_eq,
    beq_iff_eq, Bool.or_eq_false_iff, beq_eq_false_iff_ne, ne_eq] at *
  omega

theorem isSepA_of_keep_punct {c : Char} (hp : isPunctA c = true) (hk : keepA c = true) :
    isSepA c = true := by
  simp only [isPunctA, keepA, isWordA, isSpaceA, isSepA, Bool.or_eq_true, Bool.and_eq_true,
    decide_eq_true_eq, beq_iff_eq] at *
  omega

theorem toLower_punct {c : Char} (h : isPunctA c = true) : Char.toLower c = c := by
  apply toLower_eq_self_of_not_upper
  simp only [isPunctA, Bool.or_eq_true, Bool.and_eq_true, decide_eq_true_eq,
    beq_iff_eq] at h
  omega

/-- Claim C4: `slugify "Hello, World!"` and `slugify "hello world"` both yield
`"hello-world"`, and every input that is empty or consists only of (ASCII)
punctuation characters slugifies to the literal fallback `"item"`. -/
theorem slugify_examples_and_punct_fallback :
    slugify "Hello, World!" = "hello-world" ∧
    slugify "hello world" = "hello-world" ∧
    ∀ s : String, (∀ c ∈ s.data, isPunctA c = true) → slugify s = "item" := by
  refine ⟨by decide, by decide, fun s h => ?_⟩
  simp only [slugify]
  have h₁ : s.data.map Char.toLower = s.data := by
    rw [show s.data.map Char.toLower = s.data.map id from
      List.map_congr_left (fun c hc => toLower_punct (h c hc)), List.map_id]
  rw [h₁, pyStripP_eq_self_of_none _ _ (fun c hc => isSpaceA_false_of_punct (h c hc))]
  have h₂ : ∀ c ∈ s.data.filter keepA, isSepA c = true := fun c hc => by
    rcases List.mem_filter.mp hc with ⟨hm, hk⟩
    exact isSepA_of_keep_punct (h c hm) hk
  cases hf : s.data.filter keepA with
  | nil => simp [hf, collapseSeps, collapseAux, pyStripP]
  | cons c cs =>
    have hc : isSepA c = true := h₂ c (by rw [hf]; exact List.mem_cons_self c cs)
    have hcs : collapseAux true cs = [] :=
      collapseAux_true_of_all_sep cs
        (fun d hd => h₂ d (by rw [hf]; exact List.mem_cons_of_mem c hd))
    simp only [hf, collapseSeps, collapseAux, hc, if_true, if_false, hcs]
    decide

/-- Witness for C4 at the concrete all-punctuation input `"!?."`. -/
theorem slugify_examples_and_punct_fallback_witness : slugify "!?." = "item" :=
  slugify_examples_and_punct_fallback.2.2 "!?." (by decide)

/-- Claim C6: the output filename is exactly the parsed publication date formatted
`YYYY-MM-DD`, a hyphen, the slug of the title, and the `.html` suffix, where
the date format depends only on the calendar date and ignores the time of day. -/
theorem filenameOf_format :
    (∀ it : FeedItem, filenameOf it = fmtYMD it.pubDate ++ "-" ++ slugify it.title ++ ".html") ∧
    (∀ (y mo d h₁ mi₁ s₁ h₂ mi₂ s₂ : Nat) (t l de : String),
      filenameOf ⟨t, l, de, ⟨y, mo, d, h₁, mi₁, s₁⟩⟩ =
        filenameOf ⟨t, l, de, ⟨y, mo, d, h₂, mi₂, s₂⟩⟩) :=
  ⟨fun _ => rfl, fun _ _ _ _ _ _ _ _ _ _ _ _ => rfl⟩

/-- Claim C7: when the configured feed URL is unset or empty after trimming, the run
aborts with the configuration error, uniformly in the fetch function (so no
network access can influence the outcome) and with no files in the result. -/
theorem missing_feed_url_aborts (rssEnv : Option String)
    (h : pyStripS (rssEnv.getD "") = "")
    (fetchF : String → Except String String) (parseXML : String → Except String RSSDoc)
    (pd : String → Option DateTime) (now : DateTime) (maxItems : Nat)
    (giscusEnv : Option String) :
    mainFull rssEnv fetchF parseXML pd now maxItems giscusEnv =
      Except.error "RSS_FEED env var is required" := by
  simp only [mainFull, h, if_true]

/-- Witness for C7: with the environment variable unset (and arbitrary concrete
values elsewhere) the run yields the configuration error. -/
theorem missing_feed_url_aborts_witness :
    mainFull none (fun _ => Except.ok "") (fun _ => Except.ok ⟨none⟩)
      (fun _ => none) ⟨2024, 1, 1, 0, 0, 0⟩ 20 none =
      Except.error "RSS_FEED env var is required" :=
  missing_feed_url_aborts none (by decide) _ _ _ _ _ _

/-- Claim C8: a well-formed feed without a `channel` element parses to the empty item
list (no error), the run writes zero item files (only `index.html`), and the
index holds zero list entries (its `<ul>` body is the empty string). -/
theorem no_channel_zero_items (pd : String → Option DateTime) (now : DateTime)
    (maxItems : Nat) (giscus : String) (doc : RSSDoc) (h : doc.channel = none) :
    parse_rss pd now maxItems doc = [] ∧
    mainRun giscus (parse_rss pd now maxItems doc) =
      [⟨OUT_DIR ++ "/index.html", newsIndexPage []⟩] ∧
    indexEntries (parse_rss pd now maxItems doc) = [] ∧
    lisOf [] = "" := by
  have hp : parse_rss pd now maxItems doc = [] := by
    unfold parse_rss
    rw [h]
  refine ⟨hp, ?_, ?_, rfl⟩
  · rw [hp]
    simp [mainRun, indexEntries, List.mergeSort_nil]
  · rw [hp]
    simp [indexEntries, List.mergeSort_nil]

/-- Witness for C8 at the concrete channel-free document. -/
theorem no_channel_zero_items_witness :
    parse_rss (fun _ => none) ⟨2024, 1, 1, 0, 0, 0⟩ 20 ⟨none⟩ = [] ∧
    mainRun "" (parse_rss (fun _ => none) ⟨2024, 1, 1, 0, 0, 0⟩ 20 ⟨none⟩) =
      [⟨OUT_DIR ++ "/index.html", newsIndexPage []⟩] ∧
    indexEntries (parse_rss (fun _ => none) ⟨2024, 1, 1, 0, 0, 0⟩ 20 ⟨none⟩) = [] ∧
    lisOf [] = "" :=
  no_channel_zero_items (fun _ => none) ⟨2024, 1, 1, 0, 0, 0⟩ 20 "" ⟨none⟩ rfl

/-- Claim C9: a missing-or-blank title becomes the fixed default `"Untitled"`, and a
missing-or-blank description makes the rendered article body carry the fixed
placeholder paragraph at the body splice point of the page template. -/
theorem title_description_defaults :
    (∀ (pd : String → Option DateTime) (now : DateTime) (it : RawItem),
      getText it.title = "" → (parseItem pd now it).title = "Untitled") ∧
    (∀ (giscus : String) (pd : String → Option DateTime) (now : DateTime) (it : RawItem),
      getText it.description = "" →
      ∃ before after, renderItem giscus (parseItem pd now it) =
        before ++ "<p>(No description provided)</p>" ++ after) := by
  constructor
  · intro pd now it h
    simp only [parseItem, h, if_true]
  · intro giscus pd now it h
    have hd : (parseItem pd now it).description = "" := h
    refine ⟨page_before (parseItem pd now it).title "../" ++
      page_mid (fmtHuman (parseItem pd now it).pubDate), page_after giscus, ?_⟩
    simp only [renderItem, page_template, bodyHtmlOf, hd, if_true]

/-- Witness for C9 at a concrete item with absent title and description. -/
theorem title_description_defaults_witness :
    (parseItem (fun _ => none) ⟨2024, 1, 1, 0, 0, 0⟩ ⟨none, none, none, none⟩).title =
      "Untitled" ∧
    ∃ before after,
      renderItem "" (parseItem (fun _ => none) ⟨2024, 1, 1, 0, 0, 0⟩ ⟨none, none, none, none⟩) =
        before ++ "<p>(No description provided)</p>" ++ after :=
  ⟨title_description_defaults.1 (fun _ => none) ⟨2024, 1, 1, 0, 0, 0⟩
      ⟨none, none, none, none⟩ (by decide),
    title_description_defaults.2 "" (fun _ => none) ⟨2024, 1, 1, 0, 0, 0⟩
      ⟨none, none, none, none⟩ (by decide)⟩

/-- An RFC 2822 datetime as `parsedate_to_datetime` (line 41) returns it: the
clock fields together with an optional UTC offset in minutes.  `none` models a
naive datetime — the `datetime.now()` fallback at line 43 is naive, and
`parsedate_to_datetime` itself yields naive values only for the `-0000`
unknown-zone form. -/
structure TzDateTime where
  clock : DateTime
  offsetMinutes : Option Int
deriving DecidableEq, Repr

/-- Mixed-radix pseudo-seconds of the clock fields shifted by the UTC offset,
realizing Python's aware-datetime comparison (compare instants, i.e. clock
minus offset) for in-range fields. -/
def TzDateTime.utcKey (d : DateTime) (offMin : Int) : Int :=
  ((((((d.year : Int) * 13 + d.month) * 32 + d.day) * 24 + d.hour) * 60 +
    d.minute) * 60 + d.second) - offMin * 60

/-- Python's datetime `<=`: two naive values compare lexicographically, two
aware values compare as instants, and comparing naive with aware raises
`TypeError`, modelled as `none`. -/
def TzDateTime.le? (a b : TzDateTime) : Option Bool :=
  match a.offsetMinutes, b.offsetMinutes with
  | none, none => some (DateTime.le a.clock b.clock)
  | some oa, some ob => some (decide (TzDateTime.utcKey a.clock oa ≤ TzDateTime.utcKey b.clock ob))
  | _, _ => none

/-- A feed item under the timezone-aware date model. -/
structure FeedItemTz where
  title : String
  link : String
  description : String
  pubDate : TzDateTime
deriving DecidableEq, Repr

/-- The loop body of `parse_rss` (lines 34-50) under the timezone-aware date
model: the fallback for a failed parse is the naive `datetime.now()`. -/
def parseItemTz (pd : String → Option TzDateTime) (now : DateTime) (it : RawItem) :
    FeedItemTz :=
  { title := if getText it.title = "" then "Untitled" else getText it.title
    link := getText it.link
    description := getText it.description
    pubDate := (pd (getText it.pubDate)).getD ⟨now, none⟩ }

/-- The sort key comparison of line 53 under the timezone-aware model,
descending; `none` is a raised `TypeError`. -/
def descLE? (a b : FeedItemTz) : Option Bool := TzDateTime.le? b.pubDate a.pubDate

/-- One insertion step of a comparison-based stable sort whose comparison can
raise; a raised comparison aborts the whole sort, as Python's `list.sort` does.
(Which pairs a sort compares is implementation specific, but any
comparison-based sort of a two-element list must compare its one pair.) -/
def insert? {α : Type} (le : α → α → Option Bool) (x : α) : List α → Option (List α)
  | [] => some [x]
  | y :: ys =>
    match le x y with
    | none => none
    | some true => some (x :: y :: ys)
    | some false => (insert? le x ys).map (y :: ·)

def sort? {α : Type} (le : α → α → Option Bool) : List α → Option (List α)
  | [] => some []
  | x :: xs =>
    match sort? le xs with
    | none => none
    | some s => insert? le x s

/-- Embeds `parse_rss` (lines 26-54) under the timezone-aware date model:
`none` is the uncaught `TypeError` raised by `items.sort` at line 53 when it
compares a naive datetime with an aware one. -/
def parse_rss_tz (pd : String → Option TzDateTime) (now : DateTime) (maxItems : Nat)
    (doc : RSSDoc) : Option (List FeedItemTz) :=
  match doc.channel with
  | none => some []
  | some ch => (sort? descLE? (ch.items.map (parseItemTz pd now))).map (List.take maxItems)

/-- The date parser used by the failing input: the well-formed RFC 2822 date
parses to an aware datetime (offset `+0000`), anything else raises. -/
def wPdTz : String → Option TzDateTime := fun s =>
  if s = "Mon, 01 Jan 2024 00:00:00 +0000" then some ⟨⟨2024, 1, 1, 0, 0, 0⟩, some 0⟩
  else none

/-- Claim C3 (code bug): the recovery the claim (and lines 39-43's own comment)
intends does not happen.  `parsedate_to_datetime` returns timezone-aware
datetimes for ordinary RSS dates while the `datetime.now()` fallback is naive,
and Python raises `TypeError` when `items.sort` (line 53) compares the two: on
a feed with one ordinarily-dated item and one item whose date text does not
parse, the run aborts at the sort instead of proceeding to completion.  The
failed item itself is built with the naive current time, as the claim says —
the crash happens one line later. -/
theorem date_parse_failure_crashes_run :
    parse_rss_tz wPdTz ⟨2024, 5, 6, 7, 8, 9⟩ 20
      ⟨some ⟨[⟨some "A", none, none, some "Mon, 01 Jan 2024 00:00:00 +0000"⟩,
              ⟨some "B", none, none, some "notadate"⟩]⟩⟩ = none ∧
    (parseItemTz wPdTz ⟨2024, 5, 6, 7, 8, 9⟩ ⟨some "B", none, none, some "notadate"⟩).pubDate =
      ⟨⟨2024, 5, 6, 7, 8, 9⟩, none⟩ := by
  decide

theorem descLE_trans (a b c : FeedItem) (h₁ : descLE a b = true) (h₂ : descLE b c = true) :
    descLE a c = true :=
  DateTime.le_trans h₂ h₁

theorem descLE_total (a b : FeedItem) : (descLE a b || descLE b a) = true :=
  DateTime.le_total b.pubDate a.pubDate

/-- Claim C1: the list returned by `parse_rss` is sorted descending by parsed
publication time, holds at most `MAX_ITEMS` entries, and is stable: for each
publication time, the items carrying it appear as a prefix-preserving
subsequence of their feed-document order. -/
theorem parse_rss_sorted_truncated_stable (pd : String → Option DateTime) (now : DateTime)
    (maxItems : Nat) (doc : RSSDoc) :
    (parse_rss pd now maxItems doc).Pairwise (fun a b => descLE a b = true) ∧
    (parse_rss pd now maxItems doc).length ≤ maxItems ∧
    (∀ ch, doc.channel = some ch → ∀ t : DateTime,
      (parse_rss pd now maxItems doc).filter (fun it => decide (it.pubDate = t)) <+:
        (ch.items.map (parseItem pd now)).filter (fun it => decide (it.pubDate = t))) := by
  cases hch : doc.channel with
  | none =>
    unfold parse_rss
    rw [hch]
    refine ⟨List.Pairwise.nil, Nat.zero_le _, fun ch hcontra t => ?_⟩
    cases hcontra
  | some ch =>
    have hrw : parse_rss pd now maxItems doc =
        ((ch.items.map (parseItem pd now)).mergeSort descLE).take maxItems := by
      unfold parse_rss
      rw [hch]
    rw [hrw]
    refine ⟨List.Pairwise.take (List.sorted_mergeSort descLE_trans descLE_total _), ?_, ?_⟩
    · rw [List.length_take]
      exact min_le_left _ _
    · intro ch' hch' t
      cases hch'
      set L := ch.items.map (parseItem pd now) with hL
      set p : FeedItem → Bool := fun it => decide (it.pubDate = t) with hp
      have hfil : (L.mergeSort descLE).filter p = L.filter p := by
        have hpw : (L.filter p).Pairwise (fun a b => descLE a b = true) :=
          List.pairwise_of_forall_mem_list (fun a ha b hb => by
            have ha' : a.pubDate = t := of_decide_eq_true (List.mem_filter.mp ha).2
            have hb' : b.pubDate = t := of_decide_eq_true (List.mem_filter.mp hb).2
            show DateTime.le b.pubDate a.pubDate = true
            rw [ha', hb']
            exact DateTime.le_refl t)
        have hsub : (L.filter p).Sublist (L.mergeSort descLE) :=
          List.sublist_mergeSort descLE_trans descLE_total hpw (List.filter_sublist L)
        have hsub2 := List.Sublist.filter p hsub
        rw [List.filter_eq_self.mpr (fun a ha => (List.mem_filter.mp ha).2)] at hsub2
        have hperm := List.Perm.filter p (List.mergeSort_perm L descLE)
        exact (List.Sublist.eq_of_length hsub2 hperm.length_eq.symm).symm
      calc ((L.mergeSort descLE).take maxItems).filter p
          <+: (L.mergeSort descLE).filter p :=
            ⟨((L.mergeSort descLE).drop maxItems).filter p, by
              rw [← List.filter_append, List.take_append_drop]⟩
        _ = L.filter p := hfil

/-- Witness for C1: the stability clause applied to a concrete two-item feed
whose items share one publication time. -/
theorem parse_rss_sorted_truncated_stable_witness :
    (parse_rss (fun _ => some ⟨2024, 1, 2, 3, 4, 5⟩) ⟨2020, 1, 1, 0, 0, 0⟩ 20
        ⟨some ⟨[⟨some "a", none, none, some "d"⟩, ⟨some "b", none, none, some "d"⟩]⟩⟩).filter
      (fun it => decide (it.pubDate = ⟨2024, 1, 2, 3, 4, 5⟩)) <+:
    (([⟨some "a", none, none, some "d"⟩, ⟨some "b", none, none, some "d"⟩] :
        List RawItem).map
      (parseItem (fun _ => some ⟨2024, 1, 2, 3, 4, 5⟩) ⟨2020, 1, 1, 0, 0, 0⟩)).filter
      (fun it => decide (it.pubDate = ⟨2024, 1, 2, 3, 4, 5⟩)) :=
  (parse_rss_sorted_truncated_stable (fun _ => some ⟨2024, 1, 2, 3, 4, 5⟩)
    ⟨2020, 1, 1, 0, 0, 0⟩ 20
    ⟨some ⟨[⟨some "a", none, none, some "d"⟩, ⟨some "b", none, none, some "d"⟩]⟩⟩).2.2
    ⟨[⟨some "a", none, none, some "d"⟩, ⟨some "b", none, none, some "d"⟩]⟩ rfl
    ⟨2024, 1, 2, 3, 4, 5⟩

theorem parseItem_now_irrelevant (pd : String → Option DateTime) (now₁ now₂ : DateTime)
    (raw : RawItem) (h : (pd (getText raw.pubDate)).isSome = true) :
    parseItem pd now₁ raw = parseItem pd now₂ raw := by
  cases hpd : pd (getText raw.pubDate) with
  | none => rw [hpd] at h; cases h
  | some d => simp [parseItem, hpd]

theorem parse_rss_now_irrelevant (pd : String → Option DateTime) (now₁ now₂ : DateTime)
    (maxItems : Nat) (doc : RSSDoc)
    (h : ∀ ch, doc.channel = some ch →
      ∀ raw ∈ ch.items, (pd (getText raw.pubDate)).isSome = true) :
    parse_rss pd now₁ maxItems doc = parse_rss pd now₂ maxItems doc := by
  cases hch : doc.channel with
  | none => simp only [parse_rss, hch]
  | some ch =>
    simp only [parse_rss, hch]
    rw [List.map_congr_left
      (fun raw hraw => parseItem_now_irrelevant pd now₁ now₂ raw (h ch hch raw hraw))]

/-- Claim C10: when every item's publication-date text parses, the run is
deterministic: two runs over the same fetched feed text, the same `MAX_ITEMS`
and the same comments snippet produce identical writes regardless of the
wall-clock time. -/
theorem run_deterministic_when_dates_parse
    (rssEnv : Option String) (fetchF : String → Except String String)
    (parseXML : String → Except String RSSDoc) (pd : String → Option DateTime)
    (maxItems : Nat) (giscusEnv : Option String) (now₁ now₂ : DateTime)
    (h : ∀ s doc, parseXML s = Except.ok doc → ∀ ch, doc.channel = some ch →
      ∀ raw ∈ ch.items, (pd (getText raw.pubDate)).isSome = true) :
    mainFull rssEnv fetchF parseXML pd now₁ maxItems giscusEnv =
      mainFull rssEnv fetchF parseXML pd now₂ maxItems giscusEnv := by
  unfold mainFull
  by_cases hurl : pyStripS (rssEnv.getD "") = ""
  · simp [hurl]
  · simp only [hurl, if_false]
    cases hf : fetchF (pyStripS (rssEnv.getD "")) with
    | error e => rfl
    | ok xml =>
      simp only [hf]
      cases hx : parseXML xml with
      | error e => rfl
      | ok doc =>
        simp only [hx]
        rw [parse_rss_now_irrelevant pd now₁ now₂ maxItems doc (h xml doc hx)]

/-- Witness for C10 at a concrete configuration whose single item has a
parseable date. -/
theorem run_deterministic_when_dates_parse_witness :
    mainFull (some "u") (fun _ => Except.ok "xml")
        (fun _ => Except.ok ⟨some ⟨[⟨some "t", none, none, some "d"⟩]⟩⟩)
        (fun _ => some ⟨2024, 1, 2, 3, 4, 5⟩) ⟨2020, 1, 1, 0, 0, 0⟩ 20 none =
      mainFull (some "u") (fun _ => Except.ok "xml")
        (fun _ => Except.ok ⟨some ⟨[⟨some "t", none, none, some "d"⟩]⟩⟩)
        (fun _ => some ⟨2024, 1, 2, 3, 4, 5⟩) ⟨2021, 6, 6, 6, 6, 6⟩ 20 none :=
  run_deterministic_when_dates_parse (some "u") (fun _ => Except.ok "xml")
    (fun _ => Except.ok ⟨some ⟨[⟨some "t", none, none, some "d"⟩]⟩⟩)
    (fun _ => some ⟨2024, 1, 2, 3, 4, 5⟩) 20 none ⟨2020, 1, 1, 0, 0, 0⟩ ⟨2021, 6, 6, 6, 6, 6⟩
    (fun _ _ _ _ _ _ _ => rfl)

/-! ### Decimal rendering produces digit characters only -/

theorem digitChar_digit {m : Nat} (h : m < 10) :
    48 ≤ (Nat.digitChar m).toNat ∧ (Nat.digitChar m).toNat ≤ 57 := by
  interval_cases m <;> decide

theorem toDigitsCore_digits (fuel : Nat) : ∀ (n : Nat) (ds : List Char),
    (∀ c ∈ ds, 48 ≤ c.toNat ∧ c.toNat ≤ 57) →
    ∀ c ∈ Nat.toDigitsCore 10 fuel n ds, 48 ≤ c.toNat ∧ c.toNat ≤ 57 := by
  induction fuel with
  | zero => intro n ds hds c hc; exact hds c hc
  | succ f ih =>
    intro n ds hds c hc
    have hstep : Nat.toDigitsCore 10 (f + 1) n ds =
        if n / 10 = 0 then (n % 10).digitChar :: ds
        else Nat.toDigitsCore 10 f (n / 10) ((n % 10).digitChar :: ds) := rfl
    have hds' : ∀ c ∈ (n % 10).digitChar :: ds, 48 ≤ c.toNat ∧ c.toNat ≤ 57 := by
      intro c hc
      rcases List.mem_cons.mp hc with h | h
      · subst h; exact digitChar_digit (Nat.mod_lt n (by omega))
      · exact hds c h
    rw [hstep] at hc
    by_cases hz : n / 10 = 0
    · rw [if_pos hz] at hc
      exact hds' c hc
    · rw [if_neg hz] at hc
      exact ih (n / 10) _ hds' c hc

theorem toDigitsCore_ne_nil (fuel : Nat) : ∀ (n : Nat) (ds : List Char), ds ≠ [] →
    Nat.toDigitsCore 10 fuel n ds ≠ [] := by
  induction fuel with
  | zero => intro n ds hds; exact hds
  | succ f ih =>
    intro n ds hds
    have hstep : Nat.toDigitsCore 10 (f + 1) n ds =
        if n / 10 = 0 then (n % 10).digitChar :: ds
        else Nat.toDigitsCore 10 f (n / 10) ((n % 10).digitChar :: ds) := rfl
    rw [hstep]
    by_cases hz : n / 10 = 0
    · rw [if_pos hz]; exact List.cons_ne_nil _ _
    · rw [if_neg hz]; exact ih (n / 10) _ (List.cons_ne_nil _ _)

theorem repr_digits (n : Nat) : ∀ c ∈ (Nat.repr n).data, 48 ≤ c.toNat ∧ c.toNat ≤ 57 := by
  intro c hc
  exact toDigitsCore_digits (n + 1) n [] (by intro c hc; cases hc) c hc

theorem repr_data_ne_nil (n : Nat) : (Nat.repr n).data ≠ [] := by
  show Nat.toDigitsCore 10 (n + 1) n [] ≠ []
  have hstep : Nat.toDigitsCore 10 (n + 1) n [] =
      if n / 10 = 0 then [(n % 10).digitChar]
      else Nat.toDigitsCore 10 n (n / 10) [(n % 10).digitChar] := rfl
  rw [hstep]
  by_cases hz : n / 10 = 0
  · rw [if_pos hz]; exact List.cons_ne_nil _ _
  · rw [if_neg hz]; exact toDigitsCore_ne_nil n (n / 10) _ (List.cons_ne_nil _ _)

theorem mem_zeros_digit {c : Char} {zs : List Char} (hz : zs = ['0'] ∨ zs = ['0', '0'] ∨ zs = ['0', '0', '0'])
    (h : c ∈ zs) : 48 ≤ c.toNat ∧ c.toNat ≤ 57 := by
  have hc : c = '0' := by
    rcases hz with hz | hz | hz <;> subst hz <;> simpa using h
  subst hc
  decide

theorem pad2_digits (n : Nat) : ∀ c ∈ (pad2 n).data, 48 ≤ c.toNat ∧ c.toNat ≤ 57 := by
  intro c hc
  unfold pad2 at hc
  split at hc
  · rw [String.data_append] at hc
    rcases List.mem_append.mp hc with h | h
    · exact mem_zeros_digit (Or.inl rfl) h
    · exact repr_digits n c h
  · exact repr_digits n c hc

theorem pad4_digits (n : Nat) : ∀ c ∈ (pad4 n).data, 48 ≤ c.toNat ∧ c.toNat ≤ 57 := by
  intro c hc
  unfold pad4 at hc
  split at hc
  · rw [String.data_append] at hc
    rcases List.mem_append.mp hc with h | h
    · exact mem_zeros_digit (Or.inr (Or.inr rfl)) h
    · exact repr_digits n c h
  · split at hc
    · rw [String.data_append] at hc
      rcases List.mem_append.mp hc with h | h
      · exact mem_zeros_digit (Or.inr (Or.inl rfl)) h
      · exact repr_digits n c h
    · split at hc
      · rw [String.data_append] at hc
        rcases List.mem_append.mp hc with h | h
        · exact mem_zeros_digit (Or.inl rfl) h
        · exact repr_digits n c h
      · exact repr_digits n c hc

/-! ### Filename injectivity -/

theorem append_sep_inj : ∀ (x₁ : List Char) {x₂ y₁ y₂ : List Char},
    x₁ ++ '-' :: y₁ = x₂ ++ '-' :: y₂ →
    x₁.count '-' = x₂.count '-' → x₁ = x₂ ∧ y₁ = y₂ := by
  intro x₁
  induction x₁ with
  | nil =>
    intro x₂ y₁ y₂ h hc
    cases x₂ with
    | nil => simpa using h
    | cons d ds =>
      simp only [List.nil_append, List.cons_append, List.cons.injEq] at h
      obtain ⟨hd, -⟩ := h
      subst hd
      rw [List.count_nil, List.count_cons] at hc
      simp only [beq_self_eq_true, if_true] at hc
      omega
  | cons c cs ih =>
    intro x₂ y₁ y₂ h hc
    cases x₂ with
    | nil =>
      simp only [List.cons_append, List.nil_append, List.cons.injEq] at h
      obtain ⟨hd, -⟩ := h
      subst hd
      rw [List.count_nil, List.count_cons] at hc
      simp only [beq_self_eq_true, if_true] at hc
      omega
    | cons d ds =>
      simp only [List.cons_append, List.cons.injEq] at h
      obtain ⟨hd, htl⟩ := h
      subst hd
      have hc' : cs.count '-' = ds.count '-' := by
        rw [List.count_cons, List.count_cons] at hc
        rcases Bool.eq_false_or_eq_true (c == '-') with hb | hb <;> rw [hb] at hc <;>
          simp at hc <;> omega
      obtain ⟨h₁, h₂⟩ := ih htl hc'
      exact ⟨by rw [h₁], h₂⟩

theorem fmtYMD_count (d : DateTime) : (fmtYMD d).data.count '-' = 2 := by
  have hp4 : (pad4 d.year).data.count '-' = 0 :=
    List.count_eq_zero.mpr (fun hm => by have := pad4_digits d.year '-' hm; revert this; decide)
  have hp2 : (pad2 d.month).data.count '-' = 0 :=
    List.count_eq_zero.mpr (fun hm => by have := pad2_digits d.month '-' hm; revert this; decide)
  have hp2' : (pad2 d.day).data.count '-' = 0 :=
    List.count_eq_zero.mpr (fun hm => by have := pad2_digits d.day '-' hm; revert this; decide)
  simp only [fmtYMD, String.data_append, List.count_append, hp4, hp2, hp2']
  decide

theorem filename_inj {d₁ d₂ : DateTime} {s₁ s₂ : String}
    (h : fmtYMD d₁ ++ "-" ++ s₁ ++ ".html" = fmtYMD d₂ ++ "-" ++ s₂ ++ ".html") :
    fmtYMD d₁ = fmtYMD d₂ ∧ s₁ = s₂ := by
  have hd := congrArg String.data h
  simp only [String.data_append, List.append_assoc] at hd
  have hd' : (fmtYMD d₁).data ++ '-' :: (s₁.data ++ ".html".data) =
      (fmtYMD d₂).data ++ '-' :: (s₂.data ++ ".html".data) := by
    simpa using hd
  obtain ⟨h₁, h₂⟩ := append_sep_inj _ hd' (by rw [fmtYMD_count, fmtYMD_count])
  have h₂' : s₁.data = s₂.data := List.append_cancel_right h₂
  exact ⟨String.ext h₁, String.ext h₂'⟩

theorem pad4_head_digit (n : Nat) :
    ∃ c cs, (pad4 n).data = c :: cs ∧ 48 ≤ c.toNat ∧ c.toNat ≤ 57 := by
  unfold pad4
  split
  · exact ⟨'0', _, by rw [String.data_append]; rfl, by decide, by decide⟩
  · split
    · exact ⟨'0', _, by rw [String.data_append]; rfl, by decide, by decide⟩
    · split
      · exact ⟨'0', _, by rw [String.data_append]; rfl, by decide, by decide⟩
      · cases hq : (Nat.repr n).data with
        | nil => exact absurd hq (repr_data_ne_nil n)
        | cons c cs =>
          have hdig := repr_digits n c (by rw [hq]; exact List.mem_cons_self c cs)
          exact ⟨c, cs, rfl, hdig.1, hdig.2⟩

theorem filenameOf_data (it : FeedItem) :
    (filenameOf it).data = (pad4 it.pubDate.year).data ++
      (("-" ++ pad2 it.pubDate.month ++ "-" ++ pad2 it.pubDate.day ++ "-" ++
        slugify it.title ++ ".html").data) := by
  simp only [filenameOf, fmtYMD, String.data_append, List.append_assoc]

theorem filenameOf_ne_index (it : FeedItem) : filenameOf it ≠ "index.html" := by
  intro h
  have hd := congrArg String.data h
  rw [filenameOf_data] at hd
  obtain ⟨c, cs, hc, h1, h2⟩ := pad4_head_digit it.pubDate.year
  rw [hc] at hd
  have : c = 'i' := by
    have := congrArg List.head? hd
    simpa using this
  subst this
  revert h1 h2
  decide

theorem tripleLE_trans (a b c : DateTime × String × String) (h₁ : tripleLE a b = true)
    (h₂ : tripleLE b c = true) : tripleLE a c = true :=
  DateTime.le_trans h₂ h₁

theorem tripleLE_total (a b : DateTime × String × String) :
    (tripleLE a b || tripleLE b a) = true :=
  DateTime.le_total b.1 a.1

theorem outdir_slash_inj {f₁ f₂ : String} (h : OUT_DIR ++ "/" ++ f₁ = OUT_DIR ++ "/" ++ f₂) :
    f₁ = f₂ := by
  have hd := congrArg String.data h
  simp only [String.data_append, List.append_assoc] at hd
  exact String.ext (List.append_cancel_left (List.append_cancel_left hd))

theorem outdir_index_ne_item (f : String) (hne : f ≠ "index.html") :
    OUT_DIR ++ "/" ++ f ≠ OUT_DIR ++ "/index.html" := by
  intro h
  have hd := congrArg String.data h
  simp only [String.data_append, List.append_assoc] at hd
  have hd' := List.append_cancel_left hd
  have : ("/" : String).data ++ f.data = "/index.html".data := hd'
  have hf : f.data = "index.html".data := by
    have h2 : '/' :: f.data = '/' :: "index.html".data := this
    exact (List.cons.injEq _ _ _ _ ▸ h2).2
  exact hne (String.ext hf)

/-- Claim C2: for a feed of `N` well-formed items (`N ≤ MAX_ITEMS`) with pairwise
distinct (formatted date, slug) pairs, the run performs exactly `N` item writes
plus the index write, all to distinct paths; the index holds exactly `N`
entries, each linking a written item filename; and the index list is sorted
descending by publication date, agreeing with the generation order of the item
files. -/
theorem run_roundtrip_index_consistent (pd : String → Option DateTime) (now : DateTime)
    (maxItems : Nat) (giscus : String) (doc : RSSDoc) (ch : Channel) (N : Nat)
    (hch : doc.channel = some ch) (hN : ch.items.length = N) (hNle : N ≤ maxItems)
    (hdis : ((ch.items.map (parseItem pd now)).map
      (fun it => (fmtYMD it.pubDate, slugify it.title))).Nodup) :
    (mainRun giscus (parse_rss pd now maxItems doc)).length = N + 1 ∧
    ((mainRun giscus (parse_rss pd now maxItems doc)).map WrittenFile.path).Nodup ∧
    (indexEntries (parse_rss pd now maxItems doc)).length = N ∧
    (∀ e ∈ indexEntries (parse_rss pd now maxItems doc),
      e.2.2 ∈ (parse_rss pd now maxItems doc).map filenameOf) ∧
    (indexEntries (parse_rss pd now maxItems doc)).Pairwise
      (fun a b => tripleLE a b = true) ∧
    indexEntries (parse_rss pd now maxItems doc) =
      (parse_rss pd now maxItems doc).map indexTriple := by
  have hrw : parse_rss pd now maxItems doc =
      ((ch.items.map (parseItem pd now)).mergeSort descLE).take maxItems := by
    simp only [parse_rss, hch]
  set L := ch.items.map (parseItem pd now) with hL
  have hMlen : (L.mergeSort descLE).length = N := by
    rw [List.length_mergeSort, hL, List.length_map, hN]
  have hRM : parse_rss pd now maxItems doc = L.mergeSort descLE := by
    rw [hrw]
    exact List.take_of_length_le (by rw [hMlen]; exact hNle)
  rw [hRM]
  set R := L.mergeSort descLE with hR
  have hperm : R.Perm L := List.mergeSort_perm L descLE
  have hRlen : R.length = N := hMlen
  have hRsorted : R.Pairwise (fun a b => descLE a b = true) :=
    List.sorted_mergeSort descLE_trans descLE_total L
  have hpairsR : (R.map (fun it => (fmtYMD it.pubDate, slugify it.title))).Nodup :=
    List.Perm.nodup (List.Perm.symm (List.Perm.map _ hperm)) hdis
  have hfn : (R.map filenameOf).Nodup := by
    have hmm : R.map filenameOf =
        (R.map (fun it => (fmtYMD it.pubDate, slugify it.title))).map
          (fun q => q.1 ++ "-" ++ q.2 ++ ".html") := by
      rw [List.map_map]
      rfl
    rw [hmm]
    refine List.Nodup.map_on ?_ hpairsR
    intro x hx y hy hxy
    obtain ⟨itx, -, hx'⟩ := List.mem_map.mp hx
    obtain ⟨ity, -, hy'⟩ := List.mem_map.mp hy
    subst hx'
    subst hy'
    obtain ⟨h₁, h₂⟩ := filename_inj hxy
    simp only [Prod.mk.injEq]
    exact ⟨h₁, h₂⟩
  refine ⟨?_, ?_, ?_, ?_, ?_, ?_⟩
  · simp only [mainRun, List.length_append, List.length_map, List.length_cons,
      List.length_nil, hRlen]
  · simp only [mainRun, List.map_append, List.map_map, List.map_cons, List.map_nil]
    rw [List.nodup_append]
    refine ⟨?_, List.nodup_singleton _, ?_⟩
    · have hmm : R.map (WrittenFile.path ∘ fun it =>
          ⟨OUT_DIR ++ "/" ++ filenameOf it, renderItem giscus it⟩) =
          (R.map filenameOf).map (fun f => OUT_DIR ++ "/" ++ f) := by
        rw [List.map_map]
        rfl
      rw [hmm]
      refine List.Nodup.map_on ?_ hfn
      intro x _ y _ hxy
      exact outdir_slash_inj hxy
    · intro a ha hb
      simp only [List.mem_singleton] at hb
      obtain ⟨it, -, ha'⟩ := List.mem_map.mp ha
      subst hb
      exact outdir_index_ne_item (filenameOf it) (filenameOf_ne_index it) ha'
  · simp only [indexEntries, List.length_mergeSort, List.length_map, hRlen]
  · intro e he
    have he' : e ∈ R.map indexTriple :=
      (List.Perm.mem_iff (List.mergeSort_perm _ tripleLE)).mp he
    obtain ⟨it, hit, he''⟩ := List.mem_map.mp he'
    subst he''
    exact List.mem_map_of_mem filenameOf hit
  · exact List.sorted_mergeSort tripleLE_trans tripleLE_total _
  · apply List.mergeSort_of_sorted
    exact List.Pairwise.map indexTriple (fun a b h => h) hRsorted

/-- Concrete two-item feed used by witnesses. -/
def wItems : List RawItem :=
  [⟨some "Alpha", none, none, some "d1"⟩, ⟨some "Beta", none, none, some "d2"⟩]

def wDoc : RSSDoc := ⟨some ⟨wItems⟩⟩

def wPd : String → Option DateTime := fun s =>
  if s = "d1" then some ⟨2024, 1, 2, 0, 0, 0⟩ else some ⟨2024, 1, 3, 0, 0, 0⟩

def wNow : DateTime := ⟨2020, 1, 1, 0, 0, 0⟩

/-- Witness for C2 at the concrete two-item feed. -/
theorem run_roundtrip_index_consistent_witness :
    (mainRun "" (parse_rss wPd wNow 20 wDoc)).length = 2 + 1 ∧
    ((mainRun "" (parse_rss wPd wNow 20 wDoc)).map WrittenFile.path).Nodup ∧
    (indexEntries (parse_rss wPd wNow 20 wDoc)).length = 2 ∧
    (∀ e ∈ indexEntries (parse_rss wPd wNow 20 wDoc),
      e.2.2 ∈ (parse_rss wPd wNow 20 wDoc).map filenameOf) ∧
    (indexEntries (parse_rss wPd wNow 20 wDoc)).Pairwise
      (fun a b => tripleLE a b = true) ∧
    indexEntries (parse_rss wPd wNow 20 wDoc) =
      (parse_rss wPd wNow 20 wDoc).map indexTriple :=
  run_roundtrip_index_consistent wPd wNow 20 "" wDoc ⟨wItems⟩ 2 rfl (by decide) (by decide)
    (by decide)

/-! ### Slug normal form: characters of a slug, isolated hyphens, trimmed ends -/

/-- Characters a slug can contain: lowercase letters, digits, hyphen. -/
def goodChar (c : Char) : Bool :=
  (97 ≤ c.toNat && c.toNat ≤ 122) || (48 ≤ c.toNat && c.toNat ≤ 57) || c.toNat == 45

/-- Adjacent characters are never both separators. -/
def sepR (a b : Char) : Prop := ¬(isSepA a = true ∧ isSepA b = true)

/-- The character list `slugify` builds before the emptiness fallback. -/
def slugCore (s : String) : List Char :=
  pyStripP (fun c => c.toNat == 45)
    (collapseSeps ((pyStripP isSpaceA (s.data.map Char.toLower)).filter keepA))

theorem coll_mem (l : List Char) : ∀ (flag : Bool) (c : Char), c ∈ collapseAux flag l →
    c = '-' ∨ (c ∈ l ∧ isSepA c = false) := by
  induction l with
  | nil => intro flag c hc; cases hc
  | cons d ds ih =>
    intro flag c hc
    by_cases hd : isSepA d = true
    · cases flag with
      | true =>
        rw [show collapseAux true (d :: ds) = collapseAux true ds from by
          simp [collapseAux, hd]] at hc
        rcases ih true c hc with h | ⟨hm, hs⟩
        · exact Or.inl h
        · exact Or.inr ⟨List.mem_cons_of_mem d hm, hs⟩
      | false =>
        rw [show collapseAux false (d :: ds) = '-' :: collapseAux true ds from by
          simp [collapseAux, hd]] at hc
        rcases List.mem_cons.mp hc with h | h
        · exact Or.inl h
        · rcases ih true c h with h' | ⟨hm, hs⟩
          · exact Or.inl h'
          · exact Or.inr ⟨List.mem_cons_of_mem d hm, hs⟩
    · rw [show collapseAux flag (d :: ds) = d :: collapseAux false ds from by
        simp [collapseAux, hd]] at hc
      rcases List.mem_cons.mp hc with h | h
      · subst h
        exact Or.inr ⟨List.mem_cons_self _ _, by simpa using hd⟩
      · rcases ih false c h with h' | ⟨hm, hs⟩
        · exact Or.inl h'
        · exact Or.inr ⟨List.mem_cons_of_mem d hm, hs⟩

theorem coll_true_head (l : List Char) : ∀ c, (collapseAux true l).head? = some c →
    isSepA c = false := by
  induction l with
  | nil => intro c hc; cases hc
  | cons d ds ih =>
    intro c hc
    by_cases hd : isSepA d = true
    · rw [show collapseAux true (d :: ds) = collapseAux true ds from by
        simp [collapseAux, hd]] at hc
      exact ih c hc
    · rw [show collapseAux true (d :: ds) = d :: collapseAux false ds from by
        simp [collapseAux, hd]] at hc
      simp only [List.head?_cons, Option.some.injEq] at hc
      subst hc
      simpa using hd

theorem coll_chain (l : List Char) : ∀ flag, List.Chain' sepR (collapseAux flag l) := by
  induction l with
  | nil => intro flag; exact List.chain'_nil
  | cons d ds ih =>
    intro flag
    by_cases hd : isSepA d = true
    · cases flag with
      | true =>
        rw [show collapseAux true (d :: ds) = collapseAux true ds from by
          simp [collapseAux, hd]]
        exact ih true
      | false =>
        rw [show collapseAux false (d :: ds) = '-' :: collapseAux true ds from by
          simp [collapseAux, hd]]
        rw [List.chain'_cons']
        refine ⟨?_, ih true⟩
        intro y hy
        have hy' : isSepA y = false := coll_true_head ds y (Option.mem_def.mp hy)
        simp [sepR, hy']
    · rw [show collapseAux flag (d :: ds) = d :: collapseAux false ds from by
        simp [collapseAux, hd]]
      rw [List.chain'_cons']
      refine ⟨?_, ih false⟩
      intro y hy
      simp [sepR, hd]

theorem coll_flag_irrel (l : List Char) (h : ∀ c, l.head? = some c → isSepA c = false) :
    collapseAux true l = collapseAux false l := by
  cases l with
  | nil => rfl
  | cons d ds =>
    have hd : isSepA d = false := h d rfl
    simp [collapseAux, hd]

theorem coll_id (l : List Char) (hch : List.Chain' sepR l)
    (hdash : ∀ c ∈ l, isSepA c = true → c = '-') :
    collapseAux false l = l := by
  induction l with
  | nil => rfl
  | cons d ds ih =>
    rw [List.chain'_cons'] at hch
    obtain ⟨hrel, hch'⟩ := hch
    by_cases hd : isSepA d = true
    · have hd' : d = '-' := hdash d (List.mem_cons_self _ _) hd
      rw [show collapseAux false (d :: ds) = '-' :: collapseAux true ds from by
        simp [collapseAux, hd]]
      have hhead : ∀ c, ds.head? = some c → isSepA c = false := by
        intro c hc
        have hsep := hrel c (Option.mem_def.mpr hc)
        rcases Bool.eq_false_or_eq_true (isSepA c) with h | h
        · exact absurd ⟨hd, h⟩ hsep
        · exact h
      rw [coll_flag_irrel ds hhead,
        ih hch' (fun c hc hs => hdash c (List.mem_cons_of_mem d hc) hs), hd']
    · rw [show collapseAux false (d :: ds) = d :: collapseAux false ds from by
        simp [collapseAux, hd]]
      rw [ih hch' (fun c hc hs => hdash c (List.mem_cons_of_mem d hc) hs)]

theorem hd_dropWhile (p : Char → Bool) (l : List Char) :
    ∀ c, (l.dropWhile p).head? = some c → p c = false := by
  induction l with
  | nil => intro c hc; cases hc
  | cons d ds ih =>
    intro c hc
    by_cases hd : p d = true
    · rw [show (d :: ds).dropWhile p = ds.dropWhile p from by
        simp [List.dropWhile_cons, hd]] at hc
      exact ih c hc
    · rw [show (d :: ds).dropWhile p = d :: ds from by
        simp [List.dropWhile_cons, hd]] at hc
      simp only [List.head?_cons, Option.some.injEq] at hc
      subst hc
      simpa using hd

theorem getLast_dropWhile (p : Char → Bool) (l : List Char) :
    l.dropWhile p = [] ∨ (l.dropWhile p).getLast? = l.getLast? := by
  induction l with
  | nil => exact Or.inl rfl
  | cons d ds ih =>
    by_cases hd : p d = true
    · rw [show (d :: ds).dropWhile p = ds.dropWhile p from by
        simp [List.dropWhile_cons, hd]]
      by_cases hnil : ds.dropWhile p = []
      · exact Or.inl hnil
      · right
        rcases ih with h | h
        · exact absurd h hnil
        · rw [h]
          cases ds with
          | nil => exact absurd rfl hnil
          | cons e es => exact (@List.getLast?_cons_cons Char d e es).symm
    · rw [show (d :: ds).dropWhile p = d :: ds from by
        simp [List.dropWhile_cons, hd]]
      exact Or.inr rfl

theorem pyStripP_head (p : Char → Bool) (l : List Char) :
    ∀ c, (pyStripP p l).head? = some c → p c = false := by
  intro c hc
  unfold pyStripP at hc
  rw [List.head?_reverse] at hc
  rcases getLast_dropWhile p ((l.dropWhile p).reverse) with h | h
  · rw [h] at hc; cases hc
  · rw [h, List.getLast?_reverse] at hc
    exact hd_dropWhile p l c hc

theorem pyStripP_getLast (p : Char → Bool) (l : List Char) :
    ∀ c, (pyStripP p l).getLast? = some c → p c = false := by
  intro c hc
  unfold pyStripP at hc
  rw [List.getLast?_reverse] at hc
  exact hd_dropWhile p _ c hc

theorem chain_dropWhile (p : Char → Bool) (l : List Char) (h : List.Chain' sepR l) :
    List.Chain' sepR (l.dropWhile p) := by
  induction l with
  | nil => exact List.chain'_nil
  | cons d ds ih =>
    rw [List.chain'_cons'] at h
    by_cases hd : p d = true
    · rw [show (d :: ds).dropWhile p = ds.dropWhile p from by
        simp [List.dropWhile_cons, hd]]
      exact ih h.2
    · rw [show (d :: ds).dropWhile p = d :: ds from by
        simp [List.dropWhile_cons, hd]]
      exact List.chain'_cons'.mpr h

theorem sepR_symm {a b : Char} (h : sepR a b) : sepR b a := fun hp => h ⟨hp.2, hp.1⟩

theorem chain_reverse_sepR {l : List Char} (h : List.Chain' sepR l) :
    List.Chain' sepR l.reverse :=
  List.chain'_reverse.mpr (List.Chain'.imp (fun _ _ hr => sepR_symm hr) h)

theorem chain_pyStripP (p : Char → Bool) (l : List Char) (h : List.Chain' sepR l) :
    List.Chain' sepR (pyStripP p l) :=
  chain_reverse_sepR (chain_dropWhile p _ (chain_reverse_sepR (chain_dropWhile p l h)))

theorem char_ofNat_toNat {m : Nat} (h : m < 55296) : (Char.ofNat m).toNat = m := by
  have hv : m.isValidChar := Or.inl h
  simp [Char.ofNat, hv, Char.ofNatAux, Char.toNat, UInt32.toNat, BitVec.toNat_ofNatLt]

theorem toLower_not_upper (c : Char) :
    ¬(65 ≤ (Char.toLower c).toNat ∧ (Char.toLower c).toNat ≤ 90) := by
  simp only [Char.toLower]
  by_cases h : c.toNat ≥ 65 ∧ c.toNat ≤ 90
  · rw [if_pos h]
    rw [char_ofNat_toNat (by omega)]
    omega
  · rw [if_neg h]
    omega

theorem eq_dash_of_toNat45 {c : Char} (h : c.toNat = 45) : c = '-' := by
  apply Char.ext
  have h45 : c.val.toNat = ('-'.val).toNat := h
  exact UInt32.toNat.inj h45

theorem isSpaceA_iff (c : Char) : isSpaceA c = true ↔
    (c.toNat = 32 ∨ c.toNat = 9 ∨ c.toNat = 10 ∨ c.toNat = 13 ∨
     c.toNat = 11 ∨ c.toNat = 12) := by
  simp only [isSpaceA, Bool.or_eq_true, beq_iff_eq]
  omega

theorem keepA_iff (c : Char) : keepA c = true ↔
    ((97 ≤ c.toNat ∧ c.toNat ≤ 122) ∨ (65 ≤ c.toNat ∧ c.toNat ≤ 90) ∨
     (48 ≤ c.toNat ∧ c.toNat ≤ 57) ∨ c.toNat = 95 ∨
     (c.toNat = 32 ∨ c.toNat = 9 ∨ c.toNat = 10 ∨ c.toNat = 13 ∨
      c.toNat = 11 ∨ c.toNat = 12) ∨ c.toNat = 45) := by
  simp only [keepA, isWordA, isSpaceA, Bool.or_eq_true, Bool.and_eq_true,
    decide_eq_true_eq, beq_iff_eq]
  omega

theorem isSepA_iff (c : Char) : isSepA c = true ↔
    ((c.toNat = 32 ∨ c.toNat = 9 ∨ c.toNat = 10 ∨ c.toNat = 13 ∨
      c.toNat = 11 ∨ c.toNat = 12) ∨ c.toNat = 95 ∨ c.toNat = 45) := by
  simp only [isSepA, isSpaceA, Bool.or_eq_true, beq_iff_eq]
  omega

theorem goodChar_iff (c : Char) : goodChar c = true ↔
    ((97 ≤ c.toNat ∧ c.toNat ≤ 122) ∨ (48 ≤ c.toNat ∧ c.toNat ≤ 57) ∨ c.toNat = 45) := by
  simp only [goodChar, Bool.or_eq_true, Bool.and_eq_true, decide_eq_true_eq, beq_iff_eq]
  omega

theorem good_toLower {c : Char} (h : goodChar c = true) : Char.toLower c = c := by
  apply toLower_eq_self_of_not_upper
  rw [goodChar_iff] at h
  omega

theorem good_not_space {c : Char} (h : goodChar c = true) : isSpaceA c = false := by
  rw [Bool.eq_false_iff]
  intro hs
  rw [isSpaceA_iff] at hs
  rw [goodChar_iff] at h
  omega

theorem good_keep {c : Char} (h : goodChar c = true) : keepA c = true := by
  rw [keepA_iff]
  rw [goodChar_iff] at h
  omega

theorem good_sep_dash {c : Char} (h : goodChar c = true) (hs : isSepA c = true) : c = '-' := by
  apply eq_dash_of_toNat45
  rw [goodChar_iff] at h
  rw [isSepA_iff] at hs
  omega

theorem good_of_parts {c : Char} (hk : keepA c = true) (hs : isSepA c = false)
    (c' : Char) (hlow : c = Char.toLower c') : goodChar c = true := by
  have hup := toLower_not_upper c'
  rw [← hlow] at hup
  rw [Bool.eq_false_iff] at hs
  rw [goodChar_iff]
  rw [keepA_iff] at hk
  by_cases hsep : isSepA c = true
  · exact absurd hsep hs
  · rw [isSepA_iff] at hsep
    omega

theorem slugCore_good (s : String) : ∀ c ∈ slugCore s, goodChar c = true := by
  intro c hc
  have hc4 := mem_of_mem_pyStripP hc
  rcases coll_mem _ false c hc4 with h | ⟨hm, hs⟩
  · subst h; decide
  · have hk := (List.mem_filter.mp hm).2
    have hm2 := (List.mem_filter.mp hm).1
    have hm1 := mem_of_mem_pyStripP hm2
    obtain ⟨c', -, hlow⟩ := List.mem_map.mp hm1
    exact good_of_parts hk hs c' hlow.symm

theorem slugCore_ends (s : String) :
    List.Chain' sepR (slugCore s) ∧
    (∀ c, (slugCore s).head? = some c → c.toNat ≠ 45) ∧
    (∀ c, (slugCore s).getLast? = some c → c.toNat ≠ 45) := by
  refine ⟨chain_pyStripP _ _ (coll_chain _ false), ?_, ?_⟩
  · intro c hc
    have h := pyStripP_head _ _ c hc
    simpa using h
  · intro c hc
    have h := pyStripP_getLast _ _ c hc
    simpa using h

theorem normal_fixed (l : List Char) (hgood : ∀ c ∈ l, goodChar c = true)
    (hch : List.Chain' sepR l)
    (hh : ∀ c, l.head? = some c → c.toNat ≠ 45)
    (hl : ∀ c, l.getLast? = some c → c.toNat ≠ 45)
    (hne : l ≠ []) :
    slugify (String.mk l) = String.mk l := by
  have h1 : (String.mk l).data.map Char.toLower = l := by
    show l.map Char.toLower = l
    rw [show l.map Char.toLower = l.map id from
      List.map_congr_left (fun c hc => good_toLower (hgood c hc)), List.map_id]
  have h2 : pyStripP isSpaceA l = l :=
    pyStripP_eq_self_of_none _ _ (fun c hc => good_not_space (hgood c hc))
  have h3 : l.filter keepA = l := List.filter_eq_self.mpr (fun c hc => good_keep (hgood c hc))
  have h4 : collapseSeps l = l :=
    coll_id l hch (fun c hc hs => good_sep_dash (hgood c hc) hs)
  have h5 : pyStripP (fun c => c.toNat == 45) l = l := by
    unfold pyStripP
    rw [dropWhile_eq_self_of_head _ l (fun c hc => by simpa using hh c hc),
      dropWhile_eq_self_of_head _ l.reverse (fun c hc => by
        rw [List.head?_reverse] at hc
        simpa using hl c hc),
      List.reverse_reverse]
  simp only [slugify]
  rw [h1, h2, h3]
  show (if (pyStripP (fun c => c.toNat == 45) (collapseSeps l)).isEmpty then "item"
    else String.mk (pyStripP (fun c => c.toNat == 45) (collapseSeps l))) = String.mk l
  rw [h4, h5, if_neg (by rw [List.isEmpty_iff]; exact hne)]

/-- Claim C5: slugification is idempotent: `slugify (slugify s) = slugify s` for every
string `s`. -/
theorem slugify_idempotent (s : String) : slugify (slugify s) = slugify s := by
  have heq : slugify s =
      if (slugCore s).isEmpty then "item" else String.mk (slugCore s) := rfl
  by_cases he : (slugCore s).isEmpty = true
  · rw [heq, if_pos he]
    decide
  · rw [heq, if_neg he]
    obtain ⟨hch, hh, hl⟩ := slugCore_ends s
    exact normal_fixed (slugCore s) (slugCore_good s) hch hh hl
      (fun hnil => he (List.isEmpty_iff.mpr hnil))
